import Mathlib

/-!
# Verification of the lyric timing & synchronization engine (Nam077/lyric-web)

Shallow embedding of `src/utils/lyricParser.ts` and the processing pipeline of
`src/App.tsx`.  Times are JavaScript numbers used as integer milliseconds,
modelled as `Int` (delays may be negative).  The JavaScript idiom
`value || fallback` applied to a number yields `fallback` exactly when the
number is `0` (zero is falsy); it is modelled by `jsOr`.
-/

namespace LyricWeb

/-- `WordTiming` from lyricParser.ts: a timed word of the internal model. -/
structure WordTiming where
  text : String
  startTime : Int
  endTime : Int
deriving Repr, DecidableEq

/-- `LyricLine` from lyricParser.ts: a line of timed words. -/
structure LyricLine where
  text : String
  words : List WordTiming
  startTime : Int
  endTime : Int
deriving Repr, DecidableEq

/-- `WordData` from lyricParser.ts: a raw word of the external (Zing MP3) format. -/
structure WordData where
  data : String
  startTime : Int
  endTime : Int
deriving Repr, DecidableEq

/-- `SentenceData` from lyricParser.ts: a raw sentence of the external format. -/
structure SentenceData where
  words : List WordData
deriving Repr, DecidableEq

/-- `LyricDataStructure` from lyricParser.ts. -/
structure LyricDataStructure where
  sentences : List SentenceData
deriving Repr, DecidableEq

/-- `LyricData` from lyricParser.ts: external payload with error code. -/
structure LyricData where
  err : Int
  data : LyricDataStructure
deriving Repr, DecidableEq

/-- JavaScript `v || fallback` on numbers: `fallback` when `v` is `0` (falsy),
otherwise `v`. -/
def jsOr (v fallback : Int) : Int :=
  if v = 0 then fallback else v

/-- `get(first(words), 'startTime', 0)`: start time of the first word, `0` when
the list is empty. -/
def headStartW : List WordTiming → Int
  | [] => 0
  | w :: _ => w.startTime

/-- `get(last(words), 'endTime', 0)`: end time of the last word, `0` when the
list is empty. -/
def lastEndW (ws : List WordTiming) : Int :=
  match ws.getLast? with
  | none => 0
  | some w => w.endTime

/-- lodash `findIndex`: index of the first element satisfying `p`, `-1` when
none does. -/
def firstIdxInt {α : Type} (p : α → Bool) : List α → Int
  | [] => -1
  | x :: xs =>
    if p x then 0
    else if firstIdxInt p xs = -1 then -1 else firstIdxInt p xs + 1

/-- lodash `findLastIndex`: index of the last element satisfying `p`, `-1`
when none does. -/
def lastIdxInt {α : Type} (p : α → Bool) : List α → Int
  | [] => -1
  | x :: xs =>
    if lastIdxInt p xs = -1 then (if p x then 0 else -1) else lastIdxInt p xs + 1

/-- Step 1 of `normalizeTiming`: apply the delay offset and clamp the end time
to at least `startTime + 300`; the trailing `|| startTime + 300` is the JS
falsy-zero fallback of the source. -/
def delayClampWord (delayMs : Int) (w : WordTiming) : WordTiming :=
  let startTime := w.startTime + delayMs
  let endTime := jsOr (max (w.endTime + delayMs) (startTime + 300)) (startTime + 300)
  { w with startTime := startTime, endTime := endTime }

/-- Step 2 of `normalizeTiming` for one word at index `> 0`: push the start
time to at least `prev.endTime + 100`, where `prev` is the previous word of
the step-1 array (`words[wordIndex - 1]` in the source); the trailing
`|| word.startTime` is the JS falsy-zero fallback. -/
def gapWord (prev w : WordTiming) : WordTiming :=
  { w with startTime := jsOr (max w.startTime (prev.endTime + 100)) w.startTime }

/-- Step 2 of `normalizeTiming` over the tail: each word is adjusted against
the unadjusted previous word (the source reads `prevWord` from the step-1
array `words`, not from the output array). -/
def gapTail (prev : WordTiming) : List WordTiming → List WordTiming
  | [] => []
  | w :: ws => gapWord prev w :: gapTail w ws

/-- Step 2 of `normalizeTiming`: the word at index 0 is returned unchanged. -/
def gapPass : List WordTiming → List WordTiming
  | [] => []
  | w :: ws => w :: gapTail w ws

/-- `normalizeTiming` applied to one line: delay/min-duration pass, then the
gap pass, then the line bounds are recomputed from the first/last word. -/
def normalizeLine (delayMs : Int) (lyric : LyricLine) : LyricLine :=
  let words := lyric.words.map (delayClampWord delayMs)
  let normalizedWords := gapPass words
  { lyric with
    words := normalizedWords
    startTime := headStartW normalizedWords
    endTime := lastEndW normalizedWords }

/-- `normalizeTiming` from lyricParser.ts. -/
def normalizeTiming (lyrics : List LyricLine) (delayMs : Int) : List LyricLine :=
  lyrics.map (normalizeLine delayMs)

/-- One sentence of `processLyricData`: `null` when the sentence has no words,
otherwise the untrimmed, unvalidated copy of the words with line bounds from
the first/last word. -/
def processSentence (sentence : SentenceData) : Option LyricLine :=
  if sentence.words.isEmpty then none
  else
    let words : List WordTiming :=
      sentence.words.map (fun w => ⟨w.data, w.startTime, w.endTime⟩)
    some
      { text := String.intercalate " " (words.map WordTiming.text)
        words := words
        startTime := headStartW words
        endTime := lastEndW words }

/-- `processLyricData` from lyricParser.ts: the parse step used by the App
pipeline (`compact(map(...))` is `filterMap`). -/
def processLyricData (data : LyricData) : List LyricLine :=
  data.data.sentences.filterMap processSentence

/-- lodash `trim`: remove whitespace from both ends of a string. -/
def jsTrim (s : String) : String :=
  ⟨((s.data.dropWhile Char.isWhitespace).reverse.dropWhile Char.isWhitespace).reverse⟩

/-- The word validation of `parseLyricData`: trim the text, drop the word when
the trimmed text is empty, the start is negative, or the end is not after the
start. -/
def validWord (w : WordData) : Option WordTiming :=
  let startTime := w.startTime
  let endTime := w.endTime
  let text := jsTrim w.data
  if text = "" ∨ startTime < 0 ∨ endTime ≤ startTime then none
  else some ⟨text, startTime, endTime⟩

/-- One sentence of `parseLyricData`: `null` when the sentence has no words or
no word survives validation. -/
def parseSentence (sentence : SentenceData) : Option LyricLine :=
  if sentence.words.isEmpty then none
  else
    let wordTimings := sentence.words.filterMap validWord
    if wordTimings.isEmpty then none
    else
      some
        { text := String.intercalate " " (wordTimings.map WordTiming.text)
          words := wordTimings
          startTime := headStartW wordTimings
          endTime := lastEndW wordTimings }

/-- `parseLyricData` from lyricParser.ts: the validating parser. -/
def parseLyricData (lyricData : LyricDataStructure) : List LyricLine :=
  lyricData.sentences.filterMap parseSentence

/-- `get(first(lyrics), 'startTime', 0)`: start of the first line, `0` when the
list is empty. -/
def headStartL : List LyricLine → Int
  | [] => 0
  | l :: _ => l.startTime

/-- `getCurrentLyricIndex` from lyricParser.ts: `-1` before the first line's
start, else the first line whose closed interval contains the time, else
`max(0, findLastIndex(startTime <= t))` (the `|| 0` of the source maps `0` to
`0` and is the identity here). -/
def getCurrentLyricIndex (lyrics : List LyricLine) (currentTimeMs : Int) : Int :=
  if currentTimeMs < headStartL lyrics then -1
  else
    let foundIndex := firstIdxInt
      (fun l => decide (l.startTime ≤ currentTimeMs ∧ currentTimeMs ≤ l.endTime)) lyrics
    if foundIndex ≠ -1 then foundIndex
    else
      let beforeIndex := lastIdxInt (fun l => decide (l.startTime ≤ currentTimeMs)) lyrics
      max 0 beforeIndex

/-- `getCurrentWordIndex` from lyricParser.ts: first word whose closed interval
contains the time; otherwise `-1` before the first word's start, otherwise the
word count. -/
def getCurrentWordIndex (lyric : LyricLine) (currentTimeMs : Int) : Int :=
  let words := lyric.words
  let foundIndex := firstIdxInt
    (fun w => decide (w.startTime ≤ currentTimeMs ∧ currentTimeMs ≤ w.endTime)) words
  if foundIndex ≠ -1 then foundIndex
  else if currentTimeMs < headStartW words then -1
  else (words.length : Int)

/-- `mergeSentenceWords` from lyricParser.ts: collapse each line of at least
two words into a single word spanning first start to last end, with the line's
full text. -/
def mergeSentenceWords (lyrics : List LyricLine) : List LyricLine :=
  if lyrics.isEmpty then []
  else
    lyrics.map (fun lyric =>
      if lyric.words.length ≤ 1 then lyric
      else
        let mergedWord : WordTiming :=
          ⟨lyric.text, headStartW lyric.words, lastEndW lyric.words⟩
        { lyric with
          words := [mergedWord]
          startTime := mergedWord.startTime
          endTime := mergedWord.endTime })

/-- lodash `clamp(n, lower, upper)`. -/
def clampInt (n lower upper : Int) : Int :=
  max lower (min n upper)

/-- The `lyricsWithTiming` memo of App.tsx: parse, then merge when enabled,
then normalize with the delay clamped to `[-10000, 10000]`. -/
def lyricsWithTiming (raw : LyricData) (lyricDelay : Int) (mergeSentences : Bool) :
    List LyricLine :=
  let processed := processLyricData raw
  let processed := if mergeSentences then mergeSentenceWords processed else processed
  let safeDelay := clampInt lyricDelay (-10000) 10000
  normalizeTiming processed safeDelay

/-- The spec's minimum-duration invariant as a decidable check: every word of
every line satisfies `endTime - startTime >= 300`. -/
def minDurationHolds (lyrics : List LyricLine) : Bool :=
  lyrics.all (fun l => l.words.all (fun w => decide (300 ≤ w.endTime - w.startTime)))

/-- The spec's minimum-gap invariant on one word list as a decidable check:
every consecutive pair satisfies `startTime_i >= endTime_(i-1) + 100`. -/
def gapOK : List WordTiming → Bool
  | [] => true
  | [_] => true
  | a :: b :: ws => decide (a.endTime + 100 ≤ b.startTime) && gapOK (b :: ws)

/-- The spec's minimum-gap invariant as a decidable check over all lines. -/
def gapInvariantHolds (lyrics : List LyricLine) : Bool :=
  lyrics.all (fun l => gapOK l.words)

/-- The validation postcondition the spec ascribes to the pipeline's parse
step, as a decidable check: lines are non-empty and every word has non-empty
text, `startTime >= 0` and `endTime > startTime`. -/
def parsedWordsValid (lines : List LyricLine) : Bool :=
  lines.all (fun l =>
    (!l.words.isEmpty) &&
    l.words.all (fun w =>
      (!(w.text = "")) && decide (0 ≤ w.startTime) && decide (w.startTime < w.endTime)))

end LyricWeb

namespace LyricWeb

/-! ### Lemmas about the lodash index scans -/

theorem neg_one_le_firstIdxInt {α : Type} (p : α → Bool) (xs : List α) :
    -1 ≤ firstIdxInt p xs := by
  induction xs with
  | nil => simp [firstIdxInt]
  | cons x xs ih =>
    simp only [firstIdxInt]
    split
    · omega
    · split <;> omega

theorem neg_one_le_lastIdxInt {α : Type} (p : α → Bool) (xs : List α) :
    -1 ≤ lastIdxInt p xs := by
  induction xs with
  | nil => simp [lastIdxInt]
  | cons x xs ih =>
    simp only [lastIdxInt]
    split
    · split <;> omega
    · omega

theorem firstIdxInt_eq_neg_one_iff {α : Type} (p : α → Bool) (xs : List α) :
    firstIdxInt p xs = -1 ↔ ∀ x ∈ xs, p x = false := by
  induction xs with
  | nil => simp [firstIdxInt]
  | cons x xs ih =>
    have h1 := neg_one_le_firstIdxInt p xs
    simp only [firstIdxInt, List.mem_cons]
    by_cases hx : p x
    · simp [hx]
    · simp only [hx, if_false]
      constructor
      · intro h y hy
        rcases hy with rfl | hy
        · simpa using hx
        · by_cases hr : firstIdxInt p xs = -1
          · exact (ih.mp hr) y hy
          · simp [hr] at h; omega
      · intro h
        have : firstIdxInt p xs = -1 := ih.mpr (fun y hy => h y (Or.inr hy))
        simp [this]

theorem lastIdxInt_eq_neg_one_iff {α : Type} (p : α → Bool) (xs : List α) :
    lastIdxInt p xs = -1 ↔ ∀ x ∈ xs, p x = false := by
  induction xs with
  | nil => simp [lastIdxInt]
  | cons x xs ih =>
    have h1 := neg_one_le_lastIdxInt p xs
    simp only [lastIdxInt, List.mem_cons]
    constructor
    · intro h y hy
      by_cases hr : lastIdxInt p xs = -1
      · rcases hy with rfl | hy
        · simp only [hr, if_true] at h
          by_cases hx : p y
          · simp [hx] at h
          · simpa using hx
        · exact (ih.mp hr) y hy
      · simp [hr] at h; omega
    · intro h
      have hx : p x = false := h x (Or.inl rfl)
      have : lastIdxInt p xs = -1 := ih.mpr (fun y hy => h y (Or.inr hy))
      simp [this, hx]

theorem firstIdxInt_spec {α : Type} (p : α → Bool) (xs : List α) :
    firstIdxInt p xs = -1 ∨
    ∃ n : ℕ, firstIdxInt p xs = (n : Int) ∧
      (∃ x, xs.get? n = some x ∧ p x = true) ∧
      ∀ k, k < n → ∀ y, xs.get? k = some y → p y = false := by
  induction xs with
  | nil => exact Or.inl rfl
  | cons x xs ih =>
    by_cases hx : p x
    · refine Or.inr ⟨0, ?_, ⟨x, rfl, hx⟩, ?_⟩
      · simp [firstIdxInt, hx]
      · intro k hk; omega
    · rcases ih with h | ⟨n, hn, ⟨y, hy, hpy⟩, hmin⟩
      · left; simp [firstIdxInt, hx, h]
      · refine Or.inr ⟨n + 1, ?_, ⟨y, by simpa using hy, hpy⟩, ?_⟩
        · have hne : firstIdxInt p xs ≠ -1 := by omega
          simp only [firstIdxInt, hx, if_false, if_neg hne, hn]
          push_cast
          ring
        · intro k hk z hz
          match k, hz with
          | 0, hz =>
            have hzx : x = z := by simpa using hz
            subst hzx
            simpa using hx
          | k + 1, hz =>
            exact hmin k (by omega) z (by simpa using hz)

theorem lastIdxInt_spec {α : Type} (p : α → Bool) (xs : List α) :
    lastIdxInt p xs = -1 ∨
    ∃ n : ℕ, lastIdxInt p xs = (n : Int) ∧
      (∃ x, xs.get? n = some x ∧ p x = true) ∧
      ∀ k, n < k → ∀ y, xs.get? k = some y → p y = false := by
  induction xs with
  | nil => exact Or.inl rfl
  | cons x xs ih =>
    rcases ih with h | ⟨n, hn, ⟨y, hy, hpy⟩, hmax⟩
    · by_cases hx : p x
      · refine Or.inr ⟨0, ?_, ⟨x, rfl, hx⟩, ?_⟩
        · simp [lastIdxInt, h, hx]
        · intro k hk z hz
          match k, hz with
          | j + 1, hz =>
            have hz' : xs.get? j = some z := by simpa using hz
            have := (lastIdxInt_eq_neg_one_iff p xs).mp h z
              (List.get?_mem hz')
            exact this
      · left; simp [lastIdxInt, h, hx]
    · refine Or.inr ⟨n + 1, ?_, ⟨y, by simpa using hy, hpy⟩, ?_⟩
      · have hne : lastIdxInt p xs ≠ -1 := by omega
        simp only [lastIdxInt, hne, if_neg hne, hn]
        push_cast
        ring
      · intro k hk z hz
        match k, hz with
        | j + 1, hz =>
          exact hmax j (by omega) z (by simpa using hz)

theorem lastIdxInt_ge {α : Type} {p : α → Bool} {xs : List α} {n : ℕ} {x : α}
    (hg : xs.get? n = some x) (hp : p x = true) :
    (n : Int) ≤ lastIdxInt p xs := by
  induction xs generalizing n with
  | nil => simp at hg
  | cons a xs ih =>
    match n, hg with
    | 0, hg =>
      have hax : a = x := by simpa using hg
      subst hax
      simp only [lastIdxInt]
      have h1 := neg_one_le_lastIdxInt p xs
      split
      · simp [hp]
      · omega
    | n + 1, hg =>
      have hg' : xs.get? n = some x := by simpa using hg
      have := ih hg'
      simp only [lastIdxInt]
      split
      · omega
      · push_cast
        omega

theorem firstIdxInt_eq_of {α : Type} {p : α → Bool} {xs : List α} {n : ℕ} {x : α}
    (hg : xs.get? n = some x) (hp : p x = true)
    (hmin : ∀ k, k < n → ∀ y, xs.get? k = some y → p y = false) :
    firstIdxInt p xs = (n : Int) := by
  rcases firstIdxInt_spec p xs with h | ⟨m, hm, ⟨y, hy, hpy⟩, hminm⟩
  · have := (firstIdxInt_eq_neg_one_iff p xs).mp h x (List.get?_mem hg)
    simp [hp] at this
  · rcases Nat.lt_trichotomy m n with hlt | heq | hgt
    · have := hmin m hlt y hy
      simp [hpy] at this
    · simpa [heq] using hm
    · have := hminm n hgt x hg
      simp [hp] at this

theorem lastIdxInt_eq_of {α : Type} {p : α → Bool} {xs : List α} {n : ℕ} {x : α}
    (hg : xs.get? n = some x) (hp : p x = true)
    (hmax : ∀ k, n < k → ∀ y, xs.get? k = some y → p y = false) :
    lastIdxInt p xs = (n : Int) := by
  rcases lastIdxInt_spec p xs with h | ⟨m, hm, ⟨y, hy, hpy⟩, hmaxm⟩
  · have := (lastIdxInt_eq_neg_one_iff p xs).mp h x (List.get?_mem hg)
    simp [hp] at this
  · rcases Nat.lt_trichotomy m n with hlt | heq | hgt
    · have := hmaxm n hlt x hg
      simp [hp] at this
    · simpa [heq] using hm
    · have := hmax m hgt y hy
      simp [hpy] at this

/-- C1: Scenario A fails on the code: for the raw input
`[{words:[{a,0,100},{b,50,150}]}]` with delay 0, word "b" comes out with
`startTime = 400` and `endTime = 350`, not `startTime = 200` and
`endTime = 500` as the claim states. -/
theorem scenarioA_counterexample :
    ((normalizeTiming [⟨"a b", [⟨"a", 0, 100⟩, ⟨"b", 50, 150⟩], 0, 150⟩] 0).get? 0).bind
        (fun l => l.words.get? 1) = some ⟨"b", 400, 350⟩
    ∧ (⟨"b", 400, 350⟩ : WordTiming) ≠ ⟨"b", 200, 500⟩ := by
  decide

/-- C1 (amended): on Scenario A's input with delay 0, the gap pass is applied
against the min-duration-clamped end of word "a" (300), giving "b"
`startTime = max(50, 300 + 100) = 400`, while "b"'s `endTime` was fixed
before the gap shift as `max(150, 50 + 300) = 350` and is not recomputed. -/
theorem scenarioA_actual :
    normalizeTiming [⟨"a b", [⟨"a", 0, 100⟩, ⟨"b", 50, 150⟩], 0, 150⟩] 0
      = [⟨"a b", [⟨"a", 0, 300⟩, ⟨"b", 400, 350⟩], 0, 350⟩] := by
  decide

/-- C2: the minimum-duration invariant fails on the code: on the input
`[{words:[{a,0,100},{b,50,150}]}]` with delay 0, word "b" comes out with
`startTime = 400 > endTime = 350`, so `endTime - startTime < 300`. -/
theorem minDuration_counterexample :
    minDurationHolds
      (normalizeTiming [⟨"a b", [⟨"a", 0, 100⟩, ⟨"b", 50, 150⟩], 0, 150⟩] 0) = false := by
  decide

/-- C3: the App pipeline runs the Merger before the Normalizer, so on the raw
input with words `{a,0,100},{b,50,150}` and delay 0 the pipeline's output
differs from `mergeSentenceWords (normalizeTiming (parse raw) 0)` as the
claim states it. -/
theorem pipeline_order_counterexample :
    lyricsWithTiming ⟨0, ⟨[⟨[⟨"a", 0, 100⟩, ⟨"b", 50, 150⟩]⟩]⟩⟩ 0 true
      ≠ mergeSentenceWords
          (normalizeTiming
            (processLyricData ⟨0, ⟨[⟨[⟨"a", 0, 100⟩, ⟨"b", 50, 150⟩]⟩]⟩⟩) 0) := by
  decide

/-- C3 (amended): with merging enabled the App pipeline equals the Normalizer
applied after the Merger, with the delay clamped to `[-10000, 10000]`:
`normalizeTiming (mergeSentenceWords (processLyricData raw)) (clamp delayMs)`. -/
theorem lyricsWithTiming_merger_before_normalizer (raw : LyricData) (delayMs : Int) :
    lyricsWithTiming raw delayMs true
      = normalizeTiming (mergeSentenceWords (processLyricData raw))
          (clampInt delayMs (-10000) 10000) := rfl

/-- C7: the parse step actually used by the App pipeline (`processLyricData`)
performs no trimming or validation: on a raw input containing the word
`{data:"b", startTime:5, endTime:3}` (end not after start) the word survives
in the output. -/
theorem processLyricData_no_validation_counterexample :
    processLyricData ⟨0, ⟨[⟨[⟨"a", 0, 100⟩, ⟨"b", 5, 3⟩]⟩]⟩⟩
      = [⟨"a b", [⟨"a", 0, 100⟩, ⟨"b", 5, 3⟩], 0, 3⟩]
    ∧ parsedWordsValid (processLyricData ⟨0, ⟨[⟨[⟨"a", 0, 100⟩, ⟨"b", 5, 3⟩]⟩]⟩⟩)
      = false := by
  decide

/-- C8: the minimum-gap invariant fails on the code at
`lyrics = [{words:[{a,0,0},{b,-50,0}]}]`, `delayMs = -400`: word "a" ends at
`-100`, and the gap expression `max(-450, -100 + 100)` evaluates to `0`,
which the source's `|| word.startTime` fallback treats as missing, leaving
"b" with `startTime = -450 < endTime_a + 100 = 0`. -/
theorem gapInvariant_falsy_zero_bug :
    normalizeTiming [⟨"a b", [⟨"a", 0, 0⟩, ⟨"b", -50, 0⟩], -50, 0⟩] (-400)
      = [⟨"a b", [⟨"a", -400, -100⟩, ⟨"b", -450, -150⟩], -400, -150⟩]
    ∧ gapInvariantHolds
        (normalizeTiming [⟨"a b", [⟨"a", 0, 0⟩, ⟨"b", -50, 0⟩], -50, 0⟩] (-400))
      = false := by
  decide

/-- C5: `getCurrentWordIndex` returns `words.length` also for a time that lies
in a gap between two words and is not past the last word's end: on the line
with words `[0,100]` and `[200,300]` at time `150` it returns `2` although
`150 ≤ 300`. -/
theorem getCurrentWordIndex_gap_counterexample :
    getCurrentWordIndex ⟨"a b", [⟨"a", 0, 100⟩, ⟨"b", 200, 300⟩], 0, 300⟩ 150 = 2
    ∧ ¬ (300 : Int) < 150 := by
  decide

/-- C6: without the chronological-order assumption the locator can move
backwards: on the unsorted list `[[0,10], [100,200], [20,30]]` it returns
`2` at time `50` and `1` at the later time `150`. -/
theorem locator_monotone_counterexample :
    getCurrentLyricIndex [⟨"x", [], 0, 10⟩, ⟨"y", [], 100, 200⟩, ⟨"z", [], 20, 30⟩] 50 = 2
    ∧ getCurrentLyricIndex [⟨"x", [], 0, 10⟩, ⟨"y", [], 100, 200⟩, ⟨"z", [], 20, 30⟩] 150 = 1
    ∧ (50 : Int) < 150 := by
  decide

theorem headStartW_eq_of_head? {ws : List WordTiming} {w : WordTiming}
    (h : ws.head? = some w) : headStartW ws = w.startTime := by
  cases ws with
  | nil => simp at h
  | cons a l =>
    have : a = w := by simpa using h
    simp [headStartW, this]

theorem lastEndW_eq_of_getLast? {ws : List WordTiming} {w : WordTiming}
    (h : ws.getLast? = some w) : lastEndW ws = w.endTime := by
  simp [lastEndW, h]

theorem delayClampWord_startTime (d : Int) (w : WordTiming) :
    (delayClampWord d w).startTime = w.startTime + d := rfl

theorem delayClampWord_endTime_ge (d : Int) (w : WordTiming) :
    w.startTime + d + 300 ≤ (delayClampWord d w).endTime := by
  show w.startTime + d + 300 ≤
    jsOr (max (w.endTime + d) (w.startTime + d + 300)) (w.startTime + d + 300)
  unfold jsOr
  split
  · omega
  · have := le_max_right (w.endTime + d) (w.startTime + d + 300)
    omega

theorem gapTail_get?_endTime (ws : List WordTiming) :
    ∀ (prev : WordTiming) (i : ℕ),
      ((gapTail prev ws).get? i).map WordTiming.endTime
        = (ws.get? i).map WordTiming.endTime := by
  induction ws with
  | nil => intro prev i; rfl
  | cons w ws ih =>
    intro prev i
    match i with
    | 0 => rfl
    | i + 1 =>
      simp only [gapTail]
      simpa using ih w i

theorem gapPass_get?_endTime (ws : List WordTiming) (i : ℕ) :
    ((gapPass ws).get? i).map WordTiming.endTime = (ws.get? i).map WordTiming.endTime := by
  cases ws with
  | nil => rfl
  | cons w ws =>
    match i with
    | 0 => rfl
    | i + 1 => simpa [gapPass] using gapTail_get?_endTime ws w i

theorem gapPass_get?_zero (ws : List WordTiming) :
    (gapPass ws).get? 0 = ws.get? 0 := by
  cases ws <;> rfl

/-- C2 (amended): every word of `normalizeTiming`'s output ends at least
300ms after its own delayed original start (`endTime >= startTime + delayMs
+ 300` against the input word); consequently the first word of each line
satisfies `endTime - startTime >= 300`.  (The gap pass can push a later
word's startTime past its endTime, so `endTime - startTime >= 300` does not
hold for every word.) -/
theorem normalizeTiming_minDuration_amended (lyrics : List LyricLine) (d : Int)
    (li wi : ℕ) (l l' : LyricLine) (w w' : WordTiming)
    (hl : lyrics.get? li = some l)
    (hl' : (normalizeTiming lyrics d).get? li = some l')
    (hw : l.words.get? wi = some w)
    (hw' : l'.words.get? wi = some w') :
    w.startTime + d + 300 ≤ w'.endTime
    ∧ (wi = 0 → 300 ≤ w'.endTime - w'.startTime) := by
  have hmap : (normalizeTiming lyrics d).get? li
      = (lyrics.get? li).map (normalizeLine d) := List.get?_map _ _ _
  rw [hmap, hl, Option.map_some'] at hl'
  injection hl' with hl'
  subst hl'
  have hwords : (normalizeLine d l).words = gapPass (l.words.map (delayClampWord d)) := rfl
  rw [hwords] at hw'
  have hm : (l.words.map (delayClampWord d)).get? wi = some (delayClampWord d w) := by
    rw [List.get?_map, hw, Option.map_some']
  have he := gapPass_get?_endTime (l.words.map (delayClampWord d)) wi
  rw [hw', hm, Option.map_some', Option.map_some'] at he
  injection he with he
  constructor
  · rw [he]
    exact delayClampWord_endTime_ge d w
  · intro h0
    subst h0
    have hz := gapPass_get?_zero (l.words.map (delayClampWord d))
    rw [hw', hm] at hz
    injection hz with hz
    subst hz
    have h1 := delayClampWord_endTime_ge d w
    have h2 := delayClampWord_startTime d w
    omega

/-- Witness for C2's amended theorem at a concrete input. -/
theorem normalizeTiming_minDuration_amended_witness :
    (50 : Int) + 0 + 300 ≤ 350 ∧ ((1 : ℕ) = 0 → 300 ≤ (350 : Int) - 400) :=
  normalizeTiming_minDuration_amended
    [⟨"a b", [⟨"a", 0, 100⟩, ⟨"b", 50, 150⟩], 0, 150⟩] 0 0 1
    ⟨"a b", [⟨"a", 0, 100⟩, ⟨"b", 50, 150⟩], 0, 150⟩
    ⟨"a b", [⟨"a", 0, 300⟩, ⟨"b", 400, 350⟩], 0, 350⟩
    ⟨"b", 50, 150⟩ ⟨"b", 400, 350⟩
    rfl (by decide) rfl rfl

/-- C10: on the empty line list `getCurrentLyricIndex` returns `0` for every
time `>= 0` (an index referring to no line) and `-1` exactly for negative
times. -/
theorem getCurrentLyricIndex_empty (t : Int) :
    (0 ≤ t → getCurrentLyricIndex [] t = 0)
    ∧ (t < 0 → getCurrentLyricIndex [] t = -1) := by
  constructor <;> intro h <;>
    simp [getCurrentLyricIndex, headStartL, firstIdxInt, lastIdxInt] <;> omega

/-- Witness for C10 at a concrete input. -/
theorem getCurrentLyricIndex_empty_witness :
    (0 ≤ (5 : Int)) ∧ getCurrentLyricIndex [] 5 = 0 :=
  ⟨by decide, (getCurrentLyricIndex_empty 5).1 (by decide)⟩

/-- C9: `mergeSentenceWords` returns a line with at most one word unchanged;
a line with at least two words becomes a line whose words array is the single
word `⟨line text, first word's startTime, last word's endTime⟩`, and the line
bounds are set to those same values. -/
theorem mergeSentenceWords_spec (lyrics : List LyricLine) (i : ℕ) (l : LyricLine)
    (h : lyrics.get? i = some l) :
    (l.words.length ≤ 1 → (mergeSentenceWords lyrics).get? i = some l)
    ∧ (∀ wf wl, l.words.head? = some wf → l.words.getLast? = some wl →
        2 ≤ l.words.length →
        (mergeSentenceWords lyrics).get? i =
          some ⟨l.text, [⟨l.text, wf.startTime, wl.endTime⟩],
                wf.startTime, wl.endTime⟩) := by
  have hne : lyrics.isEmpty = false := by
    cases lyrics with
    | nil => simp at h
    | cons a l => simp
  have hmap : (mergeSentenceWords lyrics).get? i
      = (lyrics.get? i).map (fun lyric =>
          if lyric.words.length ≤ 1 then lyric
          else
            { lyric with
              words := [⟨lyric.text, headStartW lyric.words, lastEndW lyric.words⟩]
              startTime := headStartW lyric.words
              endTime := lastEndW lyric.words }) := by
    simp [mergeSentenceWords, hne, List.get?_map]
  constructor
  · intro hlen
    rw [hmap, h, Option.map_some', if_pos hlen]
  · intro wf wl hwf hwl hlen
    have hlen' : ¬ l.words.length ≤ 1 := by omega
    rw [hmap, h, Option.map_some', if_neg hlen',
      headStartW_eq_of_head? hwf, lastEndW_eq_of_getLast? hwl]

/-- Witness for C9 at a concrete input. -/
theorem mergeSentenceWords_spec_witness :
    (mergeSentenceWords [⟨"a b", [⟨"a", 0, 100⟩, ⟨"b", 200, 300⟩], 0, 300⟩]).get? 0
      = some ⟨"a b", [⟨"a b", 0, 300⟩], 0, 300⟩ :=
  (mergeSentenceWords_spec [⟨"a b", [⟨"a", 0, 100⟩, ⟨"b", 200, 300⟩], 0, 300⟩] 0
      ⟨"a b", [⟨"a", 0, 100⟩, ⟨"b", 200, 300⟩], 0, 300⟩ rfl).2
    ⟨"a", 0, 100⟩ ⟨"b", 200, 300⟩ rfl (by decide) (by decide)

theorem getCurrentLyricIndex_def (lyrics : List LyricLine) (t : Int) :
    getCurrentLyricIndex lyrics t =
      if t < headStartL lyrics then -1
      else if firstIdxInt (fun l => decide (l.startTime ≤ t ∧ t ≤ l.endTime)) lyrics ≠ -1
        then firstIdxInt (fun l => decide (l.startTime ≤ t ∧ t ≤ l.endTime)) lyrics
        else max 0 (lastIdxInt (fun l => decide (l.startTime ≤ t)) lyrics) := rfl

theorem getCurrentWordIndex_def (lyric : LyricLine) (t : Int) :
    getCurrentWordIndex lyric t =
      if firstIdxInt (fun w => decide (w.startTime ≤ t ∧ t ≤ w.endTime)) lyric.words ≠ -1
        then firstIdxInt (fun w => decide (w.startTime ≤ t ∧ t ≤ w.endTime)) lyric.words
        else if t < headStartW lyric.words then -1
        else (lyric.words.length : Int) := rfl

/-- C4: for a non-empty line list, `getCurrentLyricIndex` returns `-1` before
the first line's start; otherwise the index of the first line whose closed
interval `[startTime, endTime]` contains the time; otherwise the index of the
last line whose `startTime <= t` (sticky through gaps and past the end) — and
in particular Scenario B: `[[0,500],[1000,1500]]` at `700` gives `0`. -/
theorem getCurrentLyricIndex_contract (lyrics : List LyricLine) (t : Int)
    (_hne : lyrics ≠ []) :
    (t < headStartL lyrics → getCurrentLyricIndex lyrics t = -1)
    ∧ (∀ (n : ℕ) (l : LyricLine), headStartL lyrics ≤ t →
        lyrics.get? n = some l → l.startTime ≤ t → t ≤ l.endTime →
        (∀ (k : ℕ) (y : LyricLine), k < n → lyrics.get? k = some y →
          ¬ (y.startTime ≤ t ∧ t ≤ y.endTime)) →
        getCurrentLyricIndex lyrics t = (n : Int))
    ∧ (headStartL lyrics ≤ t →
        (∀ l ∈ lyrics, ¬ (l.startTime ≤ t ∧ t ≤ l.endTime)) →
        ∀ (n : ℕ) (l : LyricLine), lyrics.get? n = some l → l.startTime ≤ t →
        (∀ (k : ℕ) (y : LyricLine), n < k → lyrics.get? k = some y →
          ¬ y.startTime ≤ t) →
        getCurrentLyricIndex lyrics t = (n : Int))
    ∧ getCurrentLyricIndex [⟨"", [], 0, 500⟩, ⟨"", [], 1000, 1500⟩] 700 = 0 := by
  refine ⟨?_, ?_, ?_, by decide⟩
  · intro h
    rw [getCurrentLyricIndex_def, if_pos h]
  · intro n l hts hg hs he hmin
    have hfound : firstIdxInt (fun l => decide (l.startTime ≤ t ∧ t ≤ l.endTime)) lyrics
        = (n : Int) := by
      refine firstIdxInt_eq_of hg (by simp [hs, he]) ?_
      intro k hk y hy
      simpa using hmin k y hk hy
    rw [getCurrentLyricIndex_def, if_neg (by omega), if_pos (by omega), hfound]
  · intro hts hnone n l hg hs hmax
    have hfound : firstIdxInt (fun l => decide (l.startTime ≤ t ∧ t ≤ l.endTime)) lyrics
        = -1 := by
      rw [firstIdxInt_eq_neg_one_iff]
      intro x hx
      simpa using hnone x hx
    have hlast : lastIdxInt (fun l => decide (l.startTime ≤ t)) lyrics = (n : Int) := by
      refine lastIdxInt_eq_of hg (by simp [hs]) ?_
      intro k hk y hy
      simpa using hmax k y hk hy
    rw [getCurrentLyricIndex_def, if_neg (by omega),
      if_neg (by rw [hfound]; exact fun h => h rfl), hlast]
    omega

/-- Witness for C4 at a concrete input: Scenario B's list at time 1200 is
inside line 1's interval. -/
theorem getCurrentLyricIndex_contract_witness :
    getCurrentLyricIndex [⟨"", [], 0, 500⟩, ⟨"", [], 1000, 1500⟩] 1200 = ((1 : ℕ) : Int) := by
  refine (getCurrentLyricIndex_contract
      [⟨"", [], 0, 500⟩, ⟨"", [], 1000, 1500⟩] 1200 (by decide)).2.1
    1 ⟨"", [], 1000, 1500⟩ (by decide) rfl (by decide) (by decide) ?_
  intro k y hk hy
  match k, hy with
  | 0, hy =>
    have : (⟨"", [], 0, 500⟩ : LyricLine) = y := by simpa using hy
    subst this
    decide

/-- C5 (amended): `getCurrentWordIndex` returns the index of the first word
whose closed interval contains the time when one exists; when none does it
returns `-1` for times before the first word's start, and `words.length` for
every other time — including times in a gap between words, not only times
past the last word's end. -/
theorem getCurrentWordIndex_amended (lyric : LyricLine) (t : Int) :
    (∀ (n : ℕ) (w : WordTiming),
        lyric.words.get? n = some w → w.startTime ≤ t → t ≤ w.endTime →
        (∀ (k : ℕ) (y : WordTiming), k < n → lyric.words.get? k = some y →
          ¬ (y.startTime ≤ t ∧ t ≤ y.endTime)) →
        getCurrentWordIndex lyric t = (n : Int))
    ∧ ((∀ w ∈ lyric.words, ¬ (w.startTime ≤ t ∧ t ≤ w.endTime)) →
        (t < headStartW lyric.words → getCurrentWordIndex lyric t = -1)
        ∧ (headStartW lyric.words ≤ t →
            getCurrentWordIndex lyric t = (lyric.words.length : Int))) := by
  constructor
  · intro n w hg hs he hmin
    have hfound : firstIdxInt (fun w => decide (w.startTime ≤ t ∧ t ≤ w.endTime)) lyric.words
        = (n : Int) := by
      refine firstIdxInt_eq_of hg (by simp [hs, he]) ?_
      intro k hk y hy
      simpa using hmin k y hk hy
    rw [getCurrentWordIndex_def, if_pos (by omega), hfound]
  · intro hnone
    have hfound : firstIdxInt (fun w => decide (w.startTime ≤ t ∧ t ≤ w.endTime)) lyric.words
        = -1 := by
      rw [firstIdxInt_eq_neg_one_iff]
      intro x hx
      simpa using hnone x hx
    constructor
    · intro hlt
      rw [getCurrentWordIndex_def, if_neg (by rw [hfound]; exact fun h => h rfl), if_pos hlt]
    · intro hge
      rw [getCurrentWordIndex_def, if_neg (by rw [hfound]; exact fun h => h rfl),
        if_neg (by omega)]

/-- Witness for C5's amended theorem at a concrete input: the gap time 150 on
words `[0,100]` and `[200,300]` yields `words.length = 2`. -/
theorem getCurrentWordIndex_amended_witness :
    getCurrentWordIndex ⟨"a b", [⟨"a", 0, 100⟩, ⟨"b", 200, 300⟩], 0, 300⟩ 150
      = (((⟨"a b", [⟨"a", 0, 100⟩, ⟨"b", 200, 300⟩], 0, 300⟩ : LyricLine)).words.length : Int) := by
  refine ((getCurrentWordIndex_amended
      ⟨"a b", [⟨"a", 0, 100⟩, ⟨"b", 200, 300⟩], 0, 300⟩ 150).2 ?_).2 (by decide)
  intro w hw
  have : w = ⟨"a", 0, 100⟩ ∨ w = ⟨"b", 200, 300⟩ := by simpa using hw
  rcases this with rfl | rfl <;> decide

theorem neg_one_le_getCurrentLyricIndex (lyrics : List LyricLine) (t : Int) :
    -1 ≤ getCurrentLyricIndex lyrics t := by
  rw [getCurrentLyricIndex_def]
  split
  · omega
  · split
    · exact neg_one_le_firstIdxInt _ lyrics
    · have := le_max_left (0 : Int)
        (lastIdxInt (fun l => decide (l.startTime ≤ t)) lyrics)
      omega

theorem sorted_start_le {lyrics : List LyricLine}
    (hs : lyrics.Pairwise (fun a b => a.startTime ≤ b.startTime))
    {i j : ℕ} {a b : LyricLine} (hij : i < j)
    (ha : lyrics.get? i = some a) (hb : lyrics.get? j = some b) :
    a.startTime ≤ b.startTime := by
  rcases List.get?_eq_some.mp ha with ⟨hi, rfl⟩
  rcases List.get?_eq_some.mp hb with ⟨hj, rfl⟩
  exact List.pairwise_iff_get.mp hs ⟨i, hi⟩ ⟨j, hj⟩ hij

/-- C6 (amended): for a line list sorted by `startTime` (as the spec assumes
upstream data to be chronological), `getCurrentLyricIndex` is monotone in the
time: it never returns a decreasing index as time advances. -/
theorem getCurrentLyricIndex_monotone_sorted (lyrics : List LyricLine)
    (hs : lyrics.Pairwise (fun a b => a.startTime ≤ b.startTime))
    (t1 t2 : Int) (h12 : t1 ≤ t2) :
    getCurrentLyricIndex lyrics t1 ≤ getCurrentLyricIndex lyrics t2 := by
  by_cases h1 : t1 < headStartL lyrics
  · calc getCurrentLyricIndex lyrics t1 = -1 := by
          rw [getCurrentLyricIndex_def, if_pos h1]
      _ ≤ getCurrentLyricIndex lyrics t2 := neg_one_le_getCurrentLyricIndex lyrics t2
  · have h2 : ¬ t2 < headStartL lyrics := by omega
    rw [getCurrentLyricIndex_def, if_neg h1]
    conv_rhs => rw [getCurrentLyricIndex_def, if_neg h2]
    by_cases hf1 : firstIdxInt (fun l => decide (l.startTime ≤ t1 ∧ t1 ≤ l.endTime)) lyrics = -1
    · rw [if_neg (by rw [hf1]; exact fun h => h rfl)]
      by_cases hf2 : firstIdxInt (fun l => decide (l.startTime ≤ t2 ∧ t2 ≤ l.endTime)) lyrics = -1
      · -- both fall back to the sticky last-started index
        rw [if_neg (by rw [hf2]; exact fun h => h rfl)]
        rcases lastIdxInt_spec (fun l => decide (l.startTime ≤ t1)) lyrics with hm | hm
        · rw [hm]
          have := neg_one_le_lastIdxInt (fun l => decide (l.startTime ≤ t2)) lyrics
          omega
        · obtain ⟨m, hm, ⟨xm, hxm, hq1⟩, -⟩ := hm
          have hq2 : (fun l => decide (l.startTime ≤ t2)) xm = true := by
            simp only [decide_eq_true_eq] at hq1 ⊢
            omega
          have := lastIdxInt_ge (p := fun l => decide (l.startTime ≤ t2)) hxm hq2
          rw [hm]
          omega
      · -- t1 falls back, t2 finds a containing line
        rw [if_pos hf2]
        rcases firstIdxInt_spec (fun l => decide (l.startTime ≤ t2 ∧ t2 ≤ l.endTime)) lyrics
          with h | ⟨n2, hn2, ⟨x2, hx2, hp2⟩, -⟩
        · exact absurd h hf2
        · rw [hn2]
          rcases lastIdxInt_spec (fun l => decide (l.startTime ≤ t1)) lyrics with hm | hm
          · rw [hm]; omega
          · obtain ⟨m, hm, ⟨xm, hxm, hq1⟩, -⟩ := hm
            rw [hm]
            simp only [decide_eq_true_eq] at hq1 hp2
            -- show m ≤ n2: otherwise line n2 starts no later than line m,
            -- hence starts before t1, yet contains t2 and nothing contains t1
            by_cases hmn : m ≤ n2
            · omega
            · exfalso
              have hlt : n2 < m := by omega
              have hstart : x2.startTime ≤ xm.startTime :=
                sorted_start_le hs hlt hx2 hxm
              have hnone := (firstIdxInt_eq_neg_one_iff _ lyrics).mp hf1 x2
                (List.get?_mem hx2)
              simp only [decide_eq_false_iff_not] at hnone
              have : ¬ (x2.startTime ≤ t1 ∧ t1 ≤ x2.endTime) := hnone
              omega
    · rw [if_pos hf1]
      rcases firstIdxInt_spec (fun l => decide (l.startTime ≤ t1 ∧ t1 ≤ l.endTime)) lyrics
        with h | ⟨n1, hn1, ⟨x1, hx1, hp1⟩, hmin1⟩
      · exact absurd h hf1
      · rw [hn1]
        simp only [decide_eq_true_eq] at hp1
        by_cases hf2 : firstIdxInt (fun l => decide (l.startTime ≤ t2 ∧ t2 ≤ l.endTime)) lyrics = -1
        · -- t1 found a containing line, t2 falls back: the last-started index
          -- at t2 is at least n1
          rw [if_neg (by rw [hf2]; exact fun h => h rfl)]
          have hq2 : (fun l => decide (l.startTime ≤ t2)) x1 = true := by
            simp only [decide_eq_true_eq]
            omega
          have := lastIdxInt_ge (p := fun l => decide (l.startTime ≤ t2)) hx1 hq2
          have hmax := le_max_right (0 : Int)
            (lastIdxInt (fun l => decide (l.startTime ≤ t2)) lyrics)
          omega
        · -- both find containing lines: the first containing index cannot move back
          rw [if_pos hf2]
          rcases firstIdxInt_spec (fun l => decide (l.startTime ≤ t2 ∧ t2 ≤ l.endTime)) lyrics
            with h | ⟨n2, hn2, ⟨x2, hx2, hp2⟩, -⟩
          · exact absurd h hf2
          · rw [hn2]
            simp only [decide_eq_true_eq] at hp2
            by_cases hmn : n1 ≤ n2
            · omega
            · exfalso
              have hlt : n2 < n1 := by omega
              have hstart : x2.startTime ≤ x1.startTime :=
                sorted_start_le hs hlt hx2 hx1
              have := hmin1 n2 hlt x2 hx2
              simp only [decide_eq_false_iff_not] at this
              omega

/-- Witness for C6's amended theorem at a concrete input. -/
theorem getCurrentLyricIndex_monotone_sorted_witness :
    getCurrentLyricIndex [⟨"", [], 0, 500⟩, ⟨"", [], 1000, 1500⟩] 700
      ≤ getCurrentLyricIndex [⟨"", [], 0, 500⟩, ⟨"", [], 1000, 1500⟩] 1200 :=
  getCurrentLyricIndex_monotone_sorted [⟨"", [], 0, 500⟩, ⟨"", [], 1000, 1500⟩]
    (by decide) 700 1200 (by omega)

/-- C7 (amended): the validating parser `parseLyricData` — not the pipeline's
`processLyricData` — drops words with empty trimmed text, negative start or
`endTime <= startTime`, and drops lines with no surviving words: every line of
its output has a non-empty words list in which every word has non-empty text,
`startTime >= 0` and `endTime > startTime`. -/
theorem parseLyricData_validates (raw : LyricDataStructure) (l : LyricLine)
    (hl : l ∈ parseLyricData raw) :
    l.words ≠ [] ∧
      ∀ w ∈ l.words, w.text ≠ "" ∧ 0 ≤ w.startTime ∧ w.startTime < w.endTime := by
  rcases List.mem_filterMap.mp hl with ⟨s, _, hs⟩
  simp only [parseSentence] at hs
  by_cases h1 : s.words.isEmpty = true
  · rw [if_pos h1] at hs
    exact absurd hs (by simp)
  · rw [if_neg h1] at hs
    by_cases h2 : (s.words.filterMap validWord).isEmpty = true
    · rw [if_pos h2] at hs
      exact absurd hs (by simp)
    · rw [if_neg h2] at hs
      injection hs with hs
      subst hs
      refine ⟨by simpa [List.isEmpty_iff] using h2, ?_⟩
      intro w hw
      rcases List.mem_filterMap.mp hw with ⟨wd, _, hwd⟩
      simp only [validWord] at hwd
      by_cases h3 : jsTrim wd.data = "" ∨ wd.startTime < 0 ∨ wd.endTime ≤ wd.startTime
      · rw [if_pos h3] at hwd
        exact absurd hwd (by simp)
      · rw [if_neg h3] at hwd
        push_neg at h3
        obtain ⟨ht, hs0, he⟩ := h3
        injection hwd with hwd
        subst hwd
        exact ⟨ht, by dsimp; omega, by dsimp; omega⟩

/-- Witness for C7's amended theorem at a concrete input. -/
theorem parseLyricData_validates_witness :
    ((⟨"a", [⟨"a", 0, 100⟩], 0, 100⟩ : LyricLine).words ≠ [] ∧
      ∀ w ∈ (⟨"a", [⟨"a", 0, 100⟩], 0, 100⟩ : LyricLine).words,
        w.text ≠ "" ∧ 0 ≤ w.startTime ∧ w.startTime < w.endTime) :=
  parseLyricData_validates ⟨[⟨[⟨" a ", 0, 100⟩]⟩]⟩ ⟨"a", [⟨"a", 0, 100⟩], 0, 100⟩
    (by decide)

end LyricWeb
